import Mathlib

/-!
Verification of the money-tracker repository's aggregation and API logic.

Shallow embedding conventions:
* JS numbers carrying money amounts are modelled as `ℚ` (the code only ever
  adds, subtracts, divides, compares and rounds them; no float-specific
  behaviour is relied on by the specification).
* Calendar dates (`date` column, format `YYYY-MM-DD`) are modelled as a
  `Date` structure of year/month/day; the string comparisons of the source
  (`===`, `>=`, `<=` on ISO strings) correspond to equality and order of the
  encoded dates, which `dateKey` linearises.
* `Array.prototype.sort` is stable (ES2019); with a consistent comparator a
  stable sort's output is unique, so it is modelled by insertion sort with
  the comparator's non-strict order.
* JS objects used as string-keyed accumulator maps preserve insertion order
  for non-index keys, so they are modelled by insertion-ordered association
  lists.
-/

/-- Transaction type enumeration, from `src/types/transaction.ts`
(`"income" | "expense" | "saved"`). -/
inductive TxType where
  | income
  | expense
  | saved
deriving DecidableEq

/-- The string stored for each transaction type. -/
def typeStr : TxType → String
  | .income => "income"
  | .expense => "expense"
  | .saved => "saved"

/-- A calendar date, modelling the `YYYY-MM-DD` strings of the `date` column. -/
structure Date where
  year : Nat
  month : Nat
  day : Nat
deriving DecidableEq

/-- Linearises a date; monotone with respect to calendar order for in-range
dates (day < 100, month < 100), so it models `new Date(s).getTime()`
comparisons. -/
def dateKey (d : Date) : Nat := d.year * 10000 + d.month * 100 + d.day

/-- Gregorian leap-year rule, as used by the JS `Date` object. -/
def isLeap (y : Nat) : Bool := y % 4 == 0 && (y % 100 != 0 || y % 400 == 0)

/-- Number of days in a month; models `new Date(y, m + 1, 0).getDate()`. -/
def daysInMonthOf (y m : Nat) : Nat :=
  if m = 2 then (if isLeap y then 29 else 28)
  else if m = 4 ∨ m = 6 ∨ m = 9 ∨ m = 11 then 30
  else 31

/-- The previous calendar day; models `d.setDate(d.getDate() - 1)`. -/
def prevDay (d : Date) : Date :=
  if 1 < d.day then ⟨d.year, d.month, d.day - 1⟩
  else if 1 < d.month then ⟨d.year, d.month - 1, daysInMonthOf d.year (d.month - 1)⟩
  else ⟨d.year - 1, 12, 31⟩

/-- `subDays d n` is the date `n` days before `d`;
models `d.setDate(d.getDate() - n)`. -/
def subDays (d : Date) : Nat → Date
  | 0 => d
  | n + 1 => prevDay (subDays d n)

/-- A transaction record, from `src/types/transaction.ts`. -/
structure Tx where
  id : Nat
  date : Date
  amount : ℚ
  type : TxType
  reason : String
  description : String
  created_at : String
deriving DecidableEq

/-- Sum of the `amount` fields; models `.reduce((s, t) => s + t.amount, 0)`. -/
def sumAmounts (l : List Tx) : ℚ := l.foldl (fun s t => s + t.amount) 0

/-- Specification-style sum: total of `amount` over the records of one type. -/
def sumOfType (ty : TxType) (l : List Tx) : ℚ :=
  ((l.filter (fun t => t.type == ty)).map (fun t => t.amount)).sum

/-- Net liquid flow of a list: `Σ income − Σ expense − Σ saved`. -/
def sumTypes (l : List Tx) : ℚ :=
  sumOfType .income l - sumOfType .expense l - sumOfType .saved l

/-- Signed amount used by `groupedTransactions` in `src/app/page.tsx`:
`t.type === 'income' ? t.amount : -t.amount`. -/
def signedAmount (t : Tx) : ℚ := if t.type = .income then t.amount else -t.amount

/-- Sum of signed amounts of a list. -/
def sumSigned (l : List Tx) : ℚ := (l.map signedAmount).sum

/-- Is the transaction dated in the (month, year) of `now`?  Models the
`d.getMonth() === now.getMonth() && d.getFullYear() === now.getFullYear()`
filters. -/
def inMonth (now : Date) (t : Tx) : Bool :=
  t.date.month == now.month && t.date.year == now.year

/-! ### The REST route, `src/app/api/transactions/route.ts` -/

/-- Request body of the `POST` handler.  `date`, `type`, `reason` are strings
where `""` models an absent or empty (JS-falsy) field; `amount` is `none`
when the field is absent (`=== undefined`), `some none` when `parseFloat`
yields `NaN`, and `some (some q)` when it parses to the number `q`. -/
structure PostBody where
  date : String
  amount : Option (Option ℚ)
  type : String
  reason : String
  description : Option String
deriving DecidableEq

/-- Outcome of the `POST` handler: a 400 rejection with its message, or the
row handed to the `INSERT` statement. -/
inductive PostResult where
  | badRequest (msg : String)
  | created (date : String) (amount : ℚ) (type : String) (reason : String)
      (description : String)
deriving DecidableEq

/-- The validation logic of the `POST` handler
(`src/app/api/transactions/route.ts`, lines 43-69). -/
def POST (b : PostBody) : PostResult :=
  if b.date = "" ∨ b.amount = none ∨ b.type = "" ∨ b.reason = "" then
    .badRequest "Missing required fields: date, amount, type, reason"
  else
    match b.amount with
    | none => .badRequest "Missing required fields: date, amount, type, reason"
    | some none => .badRequest "Amount must be a positive number"
    | some (some q) =>
      if q ≤ 0 then .badRequest "Amount must be a positive number"
      else if b.type = "income" ∨ b.type = "expense" then
        .created b.date q b.type b.reason (b.description.getD "")
      else .badRequest "Type must be \x27income\x27 or \x27expense\x27"

/-- Response of the `DELETE` handler: 400 rejection or 200 success. -/
inductive DeleteResp where
  | badRequest (msg : String)
  | okMsg (msg : String)
deriving DecidableEq

/-- JS `parseInt`: skip leading spaces, optional sign, then a maximal run of
decimal digits; `none` models `NaN` (no digits). -/
def parseIntJs (s : String) : Option Int :=
  let cs := s.data.dropWhile (fun c => c = ' ')
  let signAndRest : Int × List Char :=
    match cs with
    | '-' :: r => (-1, r)
    | '+' :: r => (1, r)
    | r => (1, r)
  let digs := signAndRest.2.takeWhile (fun c => c.isDigit)
  if digs.isEmpty then none
  else some (signAndRest.1 * (digs.foldl (fun a c => a * 10 + ((c.toNat : Int) - 48)) 0))

/-- Does the SQL `DELETE FROM transactions WHERE id = ?` row predicate match,
with the argument `parseInt(id)`?  A `NaN` argument matches no row. -/
def deleteMatches (s : String) (t : Tx) : Bool :=
  match parseIntJs s with
  | none => false
  | some n => (t.id : Int) == n

/-- The `DELETE` handler (`src/app/api/transactions/route.ts`, lines 82-106):
`idParam` is `searchParams.get("id")` (`none` when absent).  Returns the
response together with the table contents after the statement runs; the
database client is modelled as total. -/
def DELETE (idParam : Option String) (rows : List Tx) : DeleteResp × List Tx :=
  match idParam with
  | none => (.badRequest "Transaction ID is required", rows)
  | some s =>
    if s = "" then (.badRequest "Transaction ID is required", rows)
    else (.okMsg "Transaction deleted", rows.filter (fun t => !deleteMatches s t))

/-! ### Month grouping, `src/app/page.tsx` (`groupedTransactions`) -/

/-- Month-grouping key: the `(year, month)` encoded by the display string
`getMonthYear` (e.g. `"March 2024"`), which is injective in `(year, month)`. -/
def monthKey (d : Date) : Nat × Nat := (d.year, d.month)

/-- One entry of the `groups` accumulator object. -/
structure MonthGroup where
  key : Nat × Nat
  transactions : List Tx
  total : ℚ
deriving DecidableEq

/-- One step of the `transactions.forEach` loop: push `t` onto its group
(insertion-ordered map) and add its signed amount to the group total. -/
def addTx (gs : List MonthGroup) (t : Tx) : List MonthGroup :=
  match gs with
  | [] => [⟨monthKey t.date, [t], signedAmount t⟩]
  | g :: rest =>
    if g.key = monthKey t.date then
      ⟨g.key, g.transactions ++ [t], g.total + signedAmount t⟩ :: rest
    else g :: addTx rest t

/-- The grouping loop of `groupedTransactions` (lines 156-167). -/
def groupByMonth (ts : List Tx) : List MonthGroup := ts.foldl addTx []

/-- Stable sort by a key into a linear order.  Models the stable
`Array.prototype.sort` with a comparator consistent with `key`. -/
def sortByKey {α β : Type} [LinearOrder β] (key : α → β) (l : List α) : List α :=
  List.insertionSort (fun a b => key a ≤ key b) l

/-- Date key of the first-encountered member of a group
(`new Date(entry[1].transactions[0].date).getTime()`). -/
def firstDateKey (g : MonthGroup) : Nat :=
  match g.transactions with
  | [] => 0
  | t :: _ => dateKey t.date

/-- `groupedTransactions` (lines 156-173, `showAllMonths` view): group by
month, then sort groups by the date of the first-encountered member,
descending (`dateB.getTime() - dateA.getTime()`). -/
def groupedTransactions (ts : List Tx) : List MonthGroup :=
  sortByKey (fun g => OrderDual.toDual (firstDateKey g)) (groupByMonth ts)

/-! ### Filtering, sorting and insights, `src/app/data-tools/page.tsx` -/

/-- Sort field selector (`type SortField = "date" | "amount" | "type"`). -/
inductive SortField where
  | date
  | amount
  | type
deriving DecidableEq

/-- Sort order selector (`type SortOrder = "asc" | "desc"`). -/
inductive SortOrder where
  | asc
  | desc
deriving DecidableEq

/-- Rank of a type under `a.type.localeCompare(b.type)`: the three strings
`"expense" < "income" < "saved"` compare lexically in this order. -/
def typeRank : TxType → Nat
  | .expense => 0
  | .income => 1
  | .saved => 2

/-- The sort step of `filteredTransactions` (lines 107-119).  Each branch is
the stable JS sort under the corresponding comparator (date: epoch-time
difference; amount: numeric difference; type: `localeCompare`), negated for
descending order. -/
def sortTxBy (f : SortField) (o : SortOrder) (l : List Tx) : List Tx :=
  match f, o with
  | .date, .asc => sortByKey (fun t => dateKey t.date) l
  | .date, .desc => sortByKey (fun t => OrderDual.toDual (dateKey t.date)) l
  | .amount, .asc => sortByKey (fun t => t.amount) l
  | .amount, .desc => sortByKey (fun t => OrderDual.toDual t.amount) l
  | .type, .asc => sortByKey (fun t => typeRank t.type) l
  | .type, .desc => sortByKey (fun t => OrderDual.toDual (typeRank t.type)) l

/-- Contiguous-prefix test on character lists. -/
def startsWithChars : List Char → List Char → Bool
  | _, [] => true
  | [], _ :: _ => false
  | h :: hs, n :: ns => h == n && startsWithChars hs ns

/-- Contiguous-substring test on character lists. -/
def containsChars : List Char → List Char → Bool
  | [], needle => needle.isEmpty
  | h :: hs, needle => startsWithChars (h :: hs) needle || containsChars hs needle

/-- Case-insensitive substring match; models
`s.toLowerCase().includes(query.toLowerCase())`. -/
def strContains (s query : String) : Bool :=
  containsChars s.toLower.data query.toLower.data

/-- The filter state of the data-tools page.  `none` models an empty (unset)
input; amount bounds carry the already-parsed number. -/
structure FilterSpec where
  sortField : SortField
  sortOrder : SortOrder
  showAllMonths : Bool
  startDate : Option Date
  endDate : Option Date
  minAmount : Option ℚ
  maxAmount : Option ℚ
  searchQuery : Option String
  typeFilter : Option TxType

/-- `filteredTransactions` (lines 62-122): the filter pipeline (current-month
quick filter, date range, amount range, text search, type) followed by the
sort. -/
def filteredTransactions (spec : FilterSpec) (ts : List Tx) (now : Date) : List Tx :=
  let r1 :=
    if !spec.showAllMonths && spec.startDate == none && spec.endDate == none then
      ts.filter (inMonth now)
    else ts
  let r2 :=
    match spec.startDate with
    | none => r1
    | some d => r1.filter (fun t => dateKey d ≤ dateKey t.date)
  let r3 :=
    match spec.endDate with
    | none => r2
    | some d => r2.filter (fun t => dateKey t.date ≤ dateKey d)
  let r4 :=
    match spec.minAmount with
    | none => r3
    | some q => r3.filter (fun t => q ≤ t.amount)
  let r5 :=
    match spec.maxAmount with
    | none => r4
    | some q => r4.filter (fun t => t.amount ≤ q)
  let r6 :=
    match spec.searchQuery with
    | none => r5
    | some q =>
      r5.filter (fun t => strContains t.reason q ||
        (t.description != "" && strContains t.description q))
  let r7 :=
    match spec.typeFilter with
    | none => r6
    | some ty => r6.filter (fun t => t.type == ty)
  sortTxBy spec.sortField spec.sortOrder r7

/-- JS `Math.round`: half-up rounding, `⌊x + 1/2⌋`. -/
def jsRound (q : ℚ) : Int := ⌊q + 1 / 2⌋

/-- One step of building `reasonMap`:
`reasonMap[reason] = (reasonMap[reason] || 0) + t.amount` on an
insertion-ordered string-keyed object. -/
def addToAssoc (m : List (String × ℚ)) (k : String) (v : ℚ) : List (String × ℚ) :=
  match m with
  | [] => [(k, v)]
  | (k', v') :: rest =>
    if k' = k then (k', v' + v) :: rest else (k', v') :: addToAssoc rest k v

/-- First whitespace-delimited token, lowercased:
`t.reason.split(' ')[0].toLowerCase()`. -/
def firstToken (s : String) : String :=
  (String.mk (s.data.takeWhile (fun c => c ≠ ' '))).toLower

/-- The insight set returned by the data-tools `insights` memo. -/
structure Insights where
  liquidBalance : ℚ
  totalSaved : ℚ
  dailyBurn : ℚ
  projectedBalance : ℚ
  savingsRate : Int
  topReasons : List (String × ℚ)
  last7Days : List (Date × ℚ)
  incomeRatio : ℚ

/-- Unfiltered current-calendar-month income (pool b). -/
def cmIncome (ts : List Tx) (now : Date) : ℚ :=
  sumAmounts ((ts.filter (inMonth now)).filter (fun t => t.type == .income))

/-- Unfiltered current-calendar-month expenses (pool b). -/
def cmExpenses (ts : List Tx) (now : Date) : ℚ :=
  sumAmounts ((ts.filter (inMonth now)).filter (fun t => t.type == .expense))

/-- Unfiltered current-calendar-month saved amounts (pool b). -/
def cmSaved (ts : List Tx) (now : Date) : ℚ :=
  sumAmounts ((ts.filter (inMonth now)).filter (fun t => t.type == .saved))

/-- Expense total dated exactly `d`, over the whole list:
`transactions.filter(t => t.date === dateStr && t.type === 'expense')`. -/
def expenseOnDay (ts : List Tx) (d : Date) : ℚ :=
  sumAmounts (ts.filter (fun t => t.date == d && t.type == .expense))

/-- The `insights` memo of `src/app/data-tools/page.tsx` (lines 124-184).
`transactions` is the fetched list, `filtered` the value of
`filteredTransactions` (the memo reads it from the enclosing closure), `now`
the injected clock.  Returns `none` when the transaction list is empty
(`if (transactions.length === 0) return null`). -/
def insights (transactions filtered : List Tx) (now : Date) : Option Insights :=
  if transactions.isEmpty then none
  else
    let daysInMonthSoFar : ℚ := (now.day : ℚ)
    let daysInMonth : ℚ := (daysInMonthOf now.year now.month : ℚ)
    let totalSaved := sumAmounts (filtered.filter (fun t => t.type == .saved))
    let totalIncome := sumAmounts (filtered.filter (fun t => t.type == .income))
    let totalExpense := sumAmounts (filtered.filter (fun t => t.type == .expense))
    let liquidBalance := totalIncome - totalExpense - totalSaved
    let cmE := cmIncome transactions now
    let cmX := cmExpenses transactions now
    let cmS := cmSaved transactions now
    let dailyBurn := cmX / daysInMonthSoFar
    let projectedExpense := dailyBurn * daysInMonth
    let projectedBalance := cmE - projectedExpense - cmS
    let savingsRate : Int := if 0 < cmE then jsRound (cmS / cmE * 100) else 0
    let reasonMap := (filtered.filter (fun t => t.type == .expense)).foldl
      (fun m t => addToAssoc m (firstToken t.reason) t.amount) []
    let topReasons :=
      (sortByKey (fun e => OrderDual.toDual e.2) reasonMap).take 5
    let last7Days :=
      ((List.range 7).map
        (fun i => (subDays now i, expenseOnDay transactions (subDays now i)))).reverse
    let incomeRatio := if 0 < cmE then cmX / cmE * 100 else 0
    some ⟨liquidBalance, totalSaved, dailyBurn, projectedBalance, savingsRate,
      topReasons, last7Days, incomeRatio⟩

/-- The insight set as the page computes it: the filtered pool is
`filteredTransactions` under the active filter spec. -/
def dataToolsInsights (spec : FilterSpec) (ts : List Tx) (now : Date) : Option Insights :=
  insights ts (filteredTransactions spec ts now) now

/-! ### The alternate data-tools view, `src/unnamed/part_000` -/

/-- Runway value: either a number of days or the explicit unbounded sentinel
(the source stores the string `"∞"` there, a value distinguishable from
every number). -/
inductive Runway where
  | days (n : Int)
  | unbounded
deriving DecidableEq

/-- All-time liquid balance of the part_000 insights. -/
def liquidV0 (ts : List Tx) : ℚ :=
  sumAmounts (ts.filter (fun t => t.type == .income)) -
    sumAmounts (ts.filter (fun t => t.type == .expense)) -
    sumAmounts (ts.filter (fun t => t.type == .saved))

/-- Daily burn of the part_000 insights: current-month expenses divided by
the current day-of-month. -/
def dailyBurnV0 (ts : List Tx) (now : Date) : ℚ :=
  sumAmounts (ts.filter (fun t => inMonth now t && t.type == .expense)) / (now.day : ℚ)

/-- Insight set of `src/unnamed/part_000` (lines 88-131). -/
structure InsightsV0 where
  runway : Runway
  dailyBurn : ℚ
  savingsRate : Int
  liquidBalance : ℚ
  totalSaved : ℚ
  topExpense : Option Tx

/-- The `insights` memo of `src/unnamed/part_000`:
`runway = dailyBurn > 0 ? Math.floor(liquidBalance / dailyBurn) : '∞'`. -/
def insightsV0 (ts : List Tx) (now : Date) : Option InsightsV0 :=
  if ts.isEmpty then none
  else
    let totalSaved := sumAmounts (ts.filter (fun t => t.type == .saved))
    let liquidBalance := liquidV0 ts
    let dailyBurn := dailyBurnV0 ts now
    let runway : Runway :=
      if 0 < dailyBurn then .days ⌊liquidBalance / dailyBurn⌋ else .unbounded
    let savingsRate : Int :=
      if 0 < sumAmounts (ts.filter (fun t => t.type == .income)) then
        jsRound (totalSaved / sumAmounts (ts.filter (fun t => t.type == .income)) * 100)
      else 0
    let topExpense :=
      (sortByKey (fun t => OrderDual.toDual t.amount)
        (ts.filter (fun t => inMonth now t && t.type == .expense))).head?
    some ⟨runway, dailyBurn, savingsRate, liquidBalance, totalSaved, topExpense⟩

/-! ### CSV export, `src/app/data-tools/page.tsx` (`handleExport`) -/

/-- Decimal digit character. -/
def digitChar (n : Nat) : Char :=
  if n = 0 then '0' else if n = 1 then '1' else if n = 2 then '2'
  else if n = 3 then '3' else if n = 4 then '4' else if n = 5 then '5'
  else if n = 6 then '6' else if n = 7 then '7' else if n = 8 then '8' else '9'

/-- Decimal rendering of a natural number (character list). -/
def natChars (n : Nat) : List Char :=
  if _h : n < 10 then [digitChar n]
  else natChars (n / 10) ++ [digitChar (n % 10)]
decreasing_by exact Nat.div_lt_self (by omega) (by omega)

/-- Two-digit zero-padded rendering, for the month and day of an ISO date. -/
def pad2 (n : Nat) : List Char :=
  if n < 10 then '0' :: natChars n else natChars n

/-- Rendering of a `Date` back to its `YYYY-MM-DD` string form. -/
def dateChars (d : Date) : List Char :=
  natChars d.year ++ '-' :: (pad2 d.month ++ '-' :: pad2 d.day)

/-- Rendering of an amount.  This abstracts the JS number-to-string
conversion; the property the export claims rely on is that the rendering
uses only digits, `-` and `/`, never the delimiter, quote or newline. -/
def ratChars (q : ℚ) : List Char :=
  (if q < 0 then ['-'] else []) ++
    (natChars q.num.natAbs ++ (if q.den = 1 then [] else '/' :: natChars q.den))

/-- Quote-doubling of `t.reason.replace(/"/g, '""')`. -/
def escQuotes (l : List Char) : List Char :=
  l.flatMap (fun c => if c = '"' then ['"', '"'] else [c])

/-- One data row of `handleExport` (lines 199-206): the six fields in the
fixed order id, date, amount, type, reason, description, joined by commas,
with the two free-text fields quoted and their internal quotes doubled. -/
def rowChars (t : Tx) : List Char :=
  natChars t.id ++ ',' ::
    (dateChars t.date ++ ',' ::
      (ratChars t.amount ++ ',' ::
        ((typeStr t.type).data ++ ',' ::
          ('"' :: (escQuotes t.reason.data ++ '"' :: ',' ::
            ('"' :: (escQuotes t.description.data ++ ['"'])))))))

/-- The rendered CSV row as a string. -/
def renderRow (t : Tx) : String := String.mk (rowChars t)

/-- The full export content: header line then one row per filtered, sorted
transaction, joined by newlines. -/
def exportCsv (spec : FilterSpec) (ts : List Tx) (now : Date) : String :=
  String.intercalate "\n"
    ("ID,Date,Amount,Type,Reason,Description" ::
      (filteredTransactions spec ts now).map renderRow)

mutual

/-- Standard delimited-text parse of one CSV record: split on commas,
honouring quoted fields in which `""` denotes a literal quote. -/
def csvFields : List Char → List (List Char)
  | [] => [[]]
  | c :: rest =>
    if c = '"' then quotedField rest []
    else if c = ',' then [] :: csvFields rest
    else
      match csvFields rest with
      | [] => [[c]]
      | f :: fs => (c :: f) :: fs
termination_by cs => cs.length

/-- Parse the remainder of a quoted field; `acc` holds the field content so
far, reversed. -/
def quotedField : List Char → List Char → List (List Char)
  | [], acc => [acc.reverse]
  | c :: rest, acc =>
    if c = '"' then
      match rest with
      | [] => [acc.reverse]
      | d :: rest2 =>
        if d = '"' then quotedField rest2 ('"' :: acc)
        else if d = ',' then acc.reverse :: csvFields rest2
        else [acc.reverse]
    else quotedField rest (c :: acc)
termination_by cs _ => cs.length

end

/-- Standard CSV parse of one record, as strings. -/
def parseCsvRow (s : String) : List String := (csvFields s.data).map String.mk

/-! ### Generic lemmas about the stable sort model -/

lemma perm_sortByKey {α β : Type} [LinearOrder β] (key : α → β) (l : List α) :
    List.Perm (sortByKey key l) l :=
  List.perm_insertionSort _ l

lemma sorted_sortByKey {α β : Type} [LinearOrder β] (key : α → β) (l : List α) :
    (sortByKey key l).Sorted (fun a b => key a ≤ key b) := by
  haveI : IsTotal α (fun a b => key a ≤ key b) := ⟨fun a b => le_total (key a) (key b)⟩
  haveI : IsTrans α (fun a b => key a ≤ key b) :=
    ⟨fun a b c hab hbc => le_trans hab hbc⟩
  exact List.sorted_insertionSort _ l

lemma filter_orderedInsert_key {α β : Type} [LinearOrder β] (key : α → β)
    (p : α → Bool) (hp : ∀ a b, p a = true → p b = true → key a = key b)
    (x : α) (s : List α) :
    (List.orderedInsert (fun a b => key a ≤ key b) x s).filter p =
      if p x then x :: s.filter p else s.filter p := by
  induction s with
  | nil => simp [List.orderedInsert, List.filter_cons]
  | cons y ys ih =>
    by_cases hr : key x ≤ key y
    · simp only [List.orderedInsert, if_pos hr, List.filter_cons]
    · simp only [List.orderedInsert, if_neg hr, List.filter_cons]
      by_cases hx : p x
      · have hy : p y = false := by
          by_contra hcon
          have hy' : p y = true := by simpa using hcon
          exact hr (le_of_eq (hp x y hx hy'))
        simp [ih, hx, hy]
      · simp only [List.filter_cons, ih]
        by_cases hy : p y <;> simp [hx, hy]

lemma filter_sortByKey {α β : Type} [LinearOrder β] (key : α → β)
    (p : α → Bool) (hp : ∀ a b, p a = true → p b = true → key a = key b)
    (l : List α) : (sortByKey key l).filter p = l.filter p := by
  induction l with
  | nil => rfl
  | cons x l ih =>
    simp only [sortByKey, List.insertionSort] at ih ⊢
    rw [filter_orderedInsert_key key p hp x _, ih, List.filter_cons]

lemma orderedInsert_append_last {α β : Type} [LinearOrder β] (key : α → β)
    (x : α) (s : List α) (h : ∀ y ∈ s, ¬ key x ≤ key y) :
    List.orderedInsert (fun a b => key a ≤ key b) x s = s ++ [x] := by
  induction s with
  | nil => rfl
  | cons y ys ih =>
    simp only [List.orderedInsert]
    rw [if_neg (h y (by simp)), ih (fun z hz => h z (by simp [hz]))]
    rfl

lemma sortByKey_strict_desc {α β : Type} [LinearOrder β] (key : α → β) (l : List α)
    (h : l.Pairwise (fun a b => key b < key a)) : sortByKey key l = l.reverse := by
  induction l with
  | nil => rfl
  | cons x xs ih =>
    have hx : ∀ y ∈ xs, key y < key x := fun y hy => (List.pairwise_cons.mp h).1 y hy
    simp only [sortByKey, List.insertionSort] at ih ⊢
    rw [ih (List.pairwise_cons.mp h).2,
      orderedInsert_append_last key x xs.reverse
        (fun y hy => not_le_of_lt (hx y (List.mem_reverse.mp hy))),
      List.reverse_cons]

/-! ### Lemmas about month grouping -/

lemma flatMap_addTx (gs : List MonthGroup) (t : Tx) :
    List.Perm ((addTx gs t).flatMap (fun g => g.transactions))
      (t :: gs.flatMap (fun g => g.transactions)) := by
  induction gs with
  | nil => simp [addTx]
  | cons g rest ih =>
    by_cases h : g.key = monthKey t.date
    · simp only [addTx, if_pos h, List.flatMap_cons]
      have : (g.transactions ++ [t]) ++ rest.flatMap (fun g => g.transactions) =
          g.transactions ++ t :: rest.flatMap (fun g => g.transactions) := by simp
      rw [this]
      exact List.perm_middle
    · simp only [addTx, if_neg h, List.flatMap_cons]
      exact (List.Perm.append_left g.transactions ih).trans List.perm_middle

lemma flatMap_foldl_addTx (ts : List Tx) :
    ∀ gs : List MonthGroup,
      List.Perm ((ts.foldl addTx gs).flatMap (fun g => g.transactions))
        (gs.flatMap (fun g => g.transactions) ++ ts) := by
  induction ts with
  | nil => intro gs; simp
  | cons t ts ih =>
    intro gs
    simp only [List.foldl_cons]
    refine (ih (addTx gs t)).trans ?_
    refine (List.Perm.append_right ts (flatMap_addTx gs t)).trans ?_
    exact List.perm_middle.symm

lemma flatMap_groupByMonth (ts : List Tx) :
    List.Perm ((groupByMonth ts).flatMap (fun g => g.transactions)) ts := by
  simpa [groupByMonth] using flatMap_foldl_addTx ts []

lemma memkey_addTx (gs : List MonthGroup) (t : Tx)
    (h : ∀ g ∈ gs, ∀ u ∈ g.transactions, monthKey u.date = g.key) :
    ∀ g ∈ addTx gs t, ∀ u ∈ g.transactions, monthKey u.date = g.key := by
  induction gs with
  | nil =>
    intro g hg u hu
    simp [addTx] at hg
    subst hg
    simp at hu
    subst hu
    rfl
  | cons g0 rest ih =>
    intro g hg u hu
    by_cases hk : g0.key = monthKey t.date
    · simp only [addTx, if_pos hk, List.mem_cons] at hg
      rcases hg with hg | hg
      · subst hg
        simp only [List.mem_append, List.mem_singleton] at hu
        rcases hu with hu | hu
        · exact h g0 (by simp) u hu
        · subst hu; exact hk.symm
      · exact h g (by simp [hg]) u hu
    · simp only [addTx, if_neg hk, List.mem_cons] at hg
      rcases hg with hg | hg
      · subst hg; exact h g (by simp) u hu
      · exact ih (fun g hg u hu => h g (by simp [hg]) u hu) g hg u hu

lemma total_addTx (gs : List MonthGroup) (t : Tx)
    (h : ∀ g ∈ gs, g.total = sumSigned g.transactions) :
    ∀ g ∈ addTx gs t, g.total = sumSigned g.transactions := by
  induction gs with
  | nil =>
    intro g hg
    simp [addTx] at hg
    subst hg
    simp [sumSigned]
  | cons g0 rest ih =>
    intro g hg
    by_cases hk : g0.key = monthKey t.date
    · simp only [addTx, if_pos hk, List.mem_cons] at hg
      rcases hg with hg | hg
      · subst hg
        simp [sumSigned, h g0 (by simp)]
      · exact h g (by simp [hg])
    · simp only [addTx, if_neg hk, List.mem_cons] at hg
      rcases hg with hg | hg
      · subst hg; exact h g (by simp)
      · exact ih (fun g hg => h g (by simp [hg])) g hg

lemma keys_addTx (gs : List MonthGroup) (t : Tx) :
    (addTx gs t).map (fun g => g.key) =
      if monthKey t.date ∈ gs.map (fun g => g.key) then gs.map (fun g => g.key)
      else gs.map (fun g => g.key) ++ [monthKey t.date] := by
  induction gs with
  | nil => simp [addTx]
  | cons g0 rest ih =>
    by_cases hk : g0.key = monthKey t.date
    · simp [addTx, hk]
    · simp only [addTx, if_neg hk, List.map_cons, ih, List.mem_cons]
      have hne : ¬ monthKey t.date = g0.key := fun he => hk he.symm
      by_cases hmem : monthKey t.date ∈ rest.map (fun g => g.key) <;>
        simp [hne, hmem]

lemma nodupkeys_addTx (gs : List MonthGroup) (t : Tx)
    (h : (gs.map (fun g => g.key)).Nodup) :
    ((addTx gs t).map (fun g => g.key)).Nodup := by
  rw [keys_addTx]
  by_cases hmem : monthKey t.date ∈ gs.map (fun g => g.key)
  · simpa [hmem] using h
  · rw [if_neg hmem]
    refine List.nodup_append.mpr ⟨h, List.nodup_singleton _, ?_⟩
    intro a ha hb
    simp only [List.mem_singleton] at hb
    subst hb
    exact hmem ha

lemma wf_foldl_addTx (ts : List Tx) :
    ∀ gs : List MonthGroup,
      (∀ g ∈ gs, ∀ u ∈ g.transactions, monthKey u.date = g.key) →
      (∀ g ∈ gs, g.total = sumSigned g.transactions) →
      (gs.map (fun g => g.key)).Nodup →
      (∀ g ∈ ts.foldl addTx gs, ∀ u ∈ g.transactions, monthKey u.date = g.key) ∧
      (∀ g ∈ ts.foldl addTx gs, g.total = sumSigned g.transactions) ∧
      ((ts.foldl addTx gs).map (fun g => g.key)).Nodup := by
  induction ts with
  | nil => intro gs h1 h2 h3; exact ⟨h1, h2, h3⟩
  | cons t ts ih =>
    intro gs h1 h2 h3
    simp only [List.foldl_cons]
    exact ih (addTx gs t) (memkey_addTx gs t h1) (total_addTx gs t h2)
      (nodupkeys_addTx gs t h3)

lemma wf_groupByMonth (ts : List Tx) :
    (∀ g ∈ groupByMonth ts, ∀ u ∈ g.transactions, monthKey u.date = g.key) ∧
    (∀ g ∈ groupByMonth ts, g.total = sumSigned g.transactions) ∧
    ((groupByMonth ts).map (fun g => g.key)).Nodup := by
  simpa [groupByMonth] using
    wf_foldl_addTx ts [] (by simp) (by simp) (by simp)

lemma sumSigned_append (l₁ l₂ : List Tx) :
    sumSigned (l₁ ++ l₂) = sumSigned l₁ + sumSigned l₂ := by
  simp [sumSigned]

lemma sum_totals_eq (gs : List MonthGroup)
    (h : ∀ g ∈ gs, g.total = sumSigned g.transactions) :
    (gs.map (fun g => g.total)).sum =
      sumSigned (gs.flatMap (fun g => g.transactions)) := by
  induction gs with
  | nil => simp [sumSigned]
  | cons g rest ih =>
    simp only [List.map_cons, List.sum_cons, List.flatMap_cons, sumSigned_append]
    rw [h g (by simp), ih (fun g hg => h g (by simp [hg]))]

lemma sumSigned_perm {l₁ l₂ : List Tx} (h : List.Perm l₁ l₂) :
    sumSigned l₁ = sumSigned l₂ := by
  unfold sumSigned
  exact (h.map signedAmount).sum_eq

lemma sumSigned_eq_sumTypes (l : List Tx) : sumSigned l = sumTypes l := by
  induction l with
  | nil => simp [sumSigned, sumTypes, sumOfType]
  | cons t rest ih =>
    have hc : sumSigned (t :: rest) = signedAmount t + sumSigned rest := by
      simp [sumSigned]
    rcases ht : t.type with _ | _ | _ <;>
      simp [sumTypes, sumOfType, List.filter_cons, hc, ih, signedAmount, ht] <;>
      ring

/-! ### Example values used by witnesses (the worked example of the spec) -/

def exTx1 : Tx := ⟨1, ⟨2024, 3, 1⟩, 1000, .income, "Salary", "", "t1"⟩

def exTx2 : Tx := ⟨2, ⟨2024, 3, 2⟩, 400, .expense, "Lunch", "", "t2"⟩

def exTx3 : Tx := ⟨3, ⟨2024, 3, 2⟩, 200, .saved, "Savings", "", "t3"⟩

def exTxs : List Tx := [exTx1, exTx2, exTx3]

def exNow : Date := ⟨2024, 3, 15⟩

def exSpec : FilterSpec := ⟨.date, .desc, true, none, none, none, none, none, none⟩

/-! ### Claim C2: month grouping is a partition with consistent totals -/

/-- C2: month grouping partitions the input: flattening the produced groups
is a permutation of the transaction list and every member of a group is
dated in that group's (year, month); group keys are pairwise distinct (so a
transaction lands in exactly one group); each group total equals
Σ income − Σ expense − Σ saved over the group's members (saved counted as an
outflow); and the group totals sum to the grand total (overall liquid
balance) over all transactions. -/
theorem month_grouping_partition (ts : List Tx) :
    List.Perm ((groupedTransactions ts).flatMap (fun g => g.transactions)) ts ∧
    (groupedTransactions ts).all
      (fun g => g.transactions.all (fun u => monthKey u.date == g.key)) = true ∧
    ((groupedTransactions ts).map (fun g => g.key)).Nodup ∧
    (groupedTransactions ts).all
      (fun g => g.total == sumTypes g.transactions) = true ∧
    ((groupedTransactions ts).map (fun g => g.total)).sum = sumTypes ts := by
  have hperm : List.Perm (groupedTransactions ts) (groupByMonth ts) :=
    perm_sortByKey _ _
  obtain ⟨h1, h2, h3⟩ := wf_groupByMonth ts
  have h1' : ∀ g ∈ groupedTransactions ts, ∀ u ∈ g.transactions,
      monthKey u.date = g.key :=
    fun g hg => h1 g (hperm.mem_iff.mp hg)
  have h2' : ∀ g ∈ groupedTransactions ts, g.total = sumSigned g.transactions :=
    fun g hg => h2 g (hperm.mem_iff.mp hg)
  have hflat :
      List.Perm ((groupedTransactions ts).flatMap (fun g => g.transactions)) ts :=
    (hperm.flatMap_right _).trans (flatMap_groupByMonth ts)
  refine ⟨hflat, ?_, ?_, ?_, ?_⟩
  · rw [List.all_eq_true]
    intro g hg
    rw [List.all_eq_true]
    intro u hu
    exact beq_iff_eq.mpr (h1' g hg u hu)
  · exact ((hperm.map (fun g => g.key)).nodup_iff).mpr h3
  · rw [List.all_eq_true]
    intro g hg
    exact beq_iff_eq.mpr ((h2' g hg).trans (sumSigned_eq_sumTypes _))
  · calc ((groupedTransactions ts).map (fun g => g.total)).sum
        = sumSigned ((groupedTransactions ts).flatMap (fun g => g.transactions)) :=
          sum_totals_eq _ h2'
    _ = sumSigned ts := sumSigned_perm hflat
    _ = sumTypes ts := sumSigned_eq_sumTypes ts

/-! ### Claim C5: group ordering -/

/-- C5: for every input ordering, the produced month groups are exactly the
first-encounter groups, reordered so that they descend by the date of each
group's first-encountered member (most recent first). -/
theorem grouped_months_sorted_desc (ts : List Tx) :
    List.Perm (groupedTransactions ts) (groupByMonth ts) ∧
    (groupedTransactions ts).Sorted
      (fun g1 g2 => firstDateKey g2 ≤ firstDateKey g1) := by
  refine ⟨perm_sortByKey _ _, ?_⟩
  have h := sorted_sortByKey
    (fun g : MonthGroup => OrderDual.toDual (firstDateKey g)) (groupByMonth ts)
  exact List.Pairwise.imp (fun hab => hab) h

/-! ### Claim C7: sorting is stable, and descending re-sort reverses -/

/-- Bool test: do two records carry the same active sort key? -/
def sameField (f : SortField) (a b : Tx) : Bool :=
  match f with
  | .date => dateKey a.date == dateKey b.date
  | .amount => a.amount == b.amount
  | .type => typeRank a.type == typeRank b.type

/-- Bool test: is the first record's active sort key strictly smaller? -/
def fieldLt (f : SortField) (a b : Tx) : Bool :=
  match f with
  | .date => decide (dateKey a.date < dateKey b.date)
  | .amount => decide (a.amount < b.amount)
  | .type => decide (typeRank a.type < typeRank b.type)

/-- C7: sorting by each field in {date, amount, type}, in either order, is a
permutation and is stable — the subsequence of records sharing any given
key value is left in its original relative order — and re-sorting an
already-strictly-ascending list (no ties) in descending order yields the
exact reverse sequence. -/
theorem sorting_stable_and_reversal (f : SortField) (o : SortOrder) (ts : List Tx) :
    List.Perm (sortTxBy f o ts) ts ∧
    (∀ u : Tx, (sortTxBy f o ts).filter (fun t => sameField f t u) =
      ts.filter (fun t => sameField f t u)) ∧
    (ts.Pairwise (fun a b => fieldLt f a b = true) →
      sortTxBy f .desc ts = ts.reverse) := by
  refine ⟨?_, ?_, ?_⟩
  · cases f <;> cases o <;> exact perm_sortByKey _ ts
  · intro u
    cases f <;> cases o
    case date.asc =>
      refine filter_sortByKey (fun t : Tx => dateKey t.date) _ ?_ ts
      intro a b ha hb
      simp only [sameField, beq_iff_eq] at ha hb
      exact ha.trans hb.symm
    case date.desc =>
      refine filter_sortByKey (fun t : Tx => OrderDual.toDual (dateKey t.date)) _ ?_ ts
      intro a b ha hb
      simp only [sameField, beq_iff_eq] at ha hb
      exact congrArg OrderDual.toDual (ha.trans hb.symm)
    case amount.asc =>
      refine filter_sortByKey (fun t : Tx => t.amount) _ ?_ ts
      intro a b ha hb
      simp only [sameField, beq_iff_eq] at ha hb
      exact ha.trans hb.symm
    case amount.desc =>
      refine filter_sortByKey (fun t : Tx => OrderDual.toDual t.amount) _ ?_ ts
      intro a b ha hb
      simp only [sameField, beq_iff_eq] at ha hb
      exact congrArg OrderDual.toDual (ha.trans hb.symm)
    case type.asc =>
      refine filter_sortByKey (fun t : Tx => typeRank t.type) _ ?_ ts
      intro a b ha hb
      simp only [sameField, beq_iff_eq] at ha hb
      exact ha.trans hb.symm
    case type.desc =>
      refine filter_sortByKey (fun t : Tx => OrderDual.toDual (typeRank t.type)) _ ?_ ts
      intro a b ha hb
      simp only [sameField, beq_iff_eq] at ha hb
      exact congrArg OrderDual.toDual (ha.trans hb.symm)
  · intro hp
    cases f
    case date =>
      refine sortByKey_strict_desc (fun t : Tx => OrderDual.toDual (dateKey t.date)) ts
        (hp.imp ?_)
      intro a b hab
      have h : dateKey a.date < dateKey b.date := by simpa [fieldLt] using hab
      exact h
    case amount =>
      refine sortByKey_strict_desc (fun t : Tx => OrderDual.toDual t.amount) ts
        (hp.imp ?_)
      intro a b hab
      have h : a.amount < b.amount := by simpa [fieldLt] using hab
      exact h
    case type =>
      refine sortByKey_strict_desc (fun t : Tx => OrderDual.toDual (typeRank t.type)) ts
        (hp.imp ?_)
      intro a b hab
      have h : typeRank a.type < typeRank b.type := by simpa [fieldLt] using hab
      exact h

/-- Witness for C7: a concrete strictly-ascending-by-amount list whose
descending re-sort is its exact reverse. -/
theorem sorting_stable_and_reversal_witness :
    ([exTx3, exTx1].Pairwise (fun a b => fieldLt .amount a b = true)) ∧
    sortTxBy .amount .desc [exTx3, exTx1] = [exTx1, exTx3] := by
  have hp : [exTx3, exTx1].Pairwise (fun a b => fieldLt .amount a b = true) := by
    decide
  refine ⟨hp, ?_⟩
  have h := (sorting_stable_and_reversal .amount .desc [exTx3, exTx1]).2.2 hp
  simpa using h

/-! ### Claim C1: POST validation (the route rejects type saved) -/

/-- C1: the claim says a creation request with type `saved` and otherwise
valid fields is accepted, but the handler's allowlist is
`["income", "expense"]`, so such a request is rejected with a 400 — while
the identical request with type `income` is accepted.  The repository's own
form submits type `saved`, its schema `CHECK` admits `saved`, and its
migration script exists to introduce `saved`, so the route's allowlist is
the slip. -/
theorem post_rejects_saved_accepts_income :
    POST ⟨"2024-03-02", some (some 200), "saved", "Savings", none⟩ =
      .badRequest "Type must be \x27income\x27 or \x27expense\x27" ∧
    POST ⟨"2024-03-02", some (some 200), "income", "Salary", none⟩ =
      .created "2024-03-02" 200 "income" "Salary" "" := by
  constructor <;> rfl

/-! ### Claim C10: DELETE always succeeds given a usable id -/

/-- C10: the DELETE endpoint responds 400 exactly when the `id` query
parameter is absent or empty (JS-falsy); for every other value — numeric or
not, matching a stored row or not — it responds 200 with message
"Transaction deleted", and when the value parses to `NaN` (non-numeric) the
statement deletes no row. -/
theorem delete_succeeds_without_matching_row (idParam : Option String)
    (rows : List Tx) :
    ((DELETE idParam rows).1 = .badRequest "Transaction ID is required" ↔
      (idParam = none ∨ idParam = some "")) ∧
    (∀ s, idParam = some s → s ≠ "" →
      (DELETE idParam rows).1 = .okMsg "Transaction deleted" ∧
      (parseIntJs s = none → (DELETE idParam rows).2 = rows)) := by
  constructor
  · constructor
    · intro h
      match idParam with
      | none => exact Or.inl rfl
      | some s =>
        by_cases hs : s = ""
        · exact Or.inr (by rw [hs])
        · simp [DELETE, hs] at h
    · rintro (h | h) <;> subst h <;> simp [DELETE]
  · rintro s rfl hs
    refine ⟨by simp [DELETE, hs], ?_⟩
    intro hp
    simp only [DELETE, if_neg hs]
    have hall : rows.filter (fun t => !deleteMatches s t) = rows := by
      apply List.filter_eq_self.mpr
      intro t _
      simp [deleteMatches, hp]
    exact hall

/-- Witness for C10: the non-numeric id "abc" yields a 200 response and
leaves the table unchanged. -/
theorem delete_succeeds_without_matching_row_witness :
    (DELETE (some "abc") [exTx2]).1 = .okMsg "Transaction deleted" ∧
    (DELETE (some "abc") [exTx2]).2 = [exTx2] := by
  have h := (delete_succeeds_without_matching_row (some "abc") [exTx2]).2
    "abc" rfl (by decide)
  exact ⟨h.1, h.2 (by decide)⟩

/-! ### Lemmas about the insight computations -/

lemma isEmpty_false_of_ne {α : Type} {l : List α} (h : l ≠ []) :
    l.isEmpty = false := by
  cases l with
  | nil => exact absurd rfl h
  | cons x l => rfl

lemma foldl_add_amount (l : List Tx) :
    ∀ a : ℚ, l.foldl (fun s t => s + t.amount) a =
      a + (l.map (fun t => t.amount)).sum := by
  induction l with
  | nil => intro a; simp
  | cons t l ih => intro a; simp [List.foldl_cons, ih, add_assoc]

lemma sumAmounts_eq (l : List Tx) :
    sumAmounts l = (l.map (fun t => t.amount)).sum := by
  rw [sumAmounts, foldl_add_amount, zero_add]

lemma sumAmounts_filter_type (ty : TxType) (l : List Tx) :
    sumAmounts (l.filter (fun t => t.type == ty)) = sumOfType ty l := by
  rw [sumOfType, sumAmounts_eq]

lemma sumAmounts_nonneg {l : List Tx} (h : ∀ t ∈ l, 0 ≤ t.amount) :
    0 ≤ sumAmounts l := by
  rw [sumAmounts_eq]
  apply List.sum_nonneg
  intro x hx
  obtain ⟨t, ht, rfl⟩ := List.mem_map.mp hx
  exact h t ht

lemma jsRound_nonneg {q : ℚ} (h : 0 ≤ q) : 0 ≤ jsRound q := by
  rw [jsRound]
  refine Int.le_floor.mpr ?_
  push_cast
  linarith

/-! ### Claim C6: liquidBalance over the filtered pool -/

/-- C6: for every transaction list and filter specification, the computed
liquidBalance equals Σ income − Σ expense − Σ saved over the
filtered/visible set (pool a). -/
theorem liquidBalance_spec (spec : FilterSpec) (ts : List Tx) (now : Date)
    (h : ts ≠ []) :
    ((dataToolsInsights spec ts now).map (fun i => i.liquidBalance)) =
      some (sumOfType .income (filteredTransactions spec ts now) -
        sumOfType .expense (filteredTransactions spec ts now) -
        sumOfType .saved (filteredTransactions spec ts now)) := by
  simp only [dataToolsInsights, insights, isEmpty_false_of_ne h,
    Bool.false_eq_true, if_false, Option.map_some', sumAmounts_filter_type]

/-- Witness for C6, on the worked example of the spec. -/
theorem liquidBalance_spec_witness :
    exTxs ≠ [] ∧
    ((dataToolsInsights exSpec exTxs exNow).map (fun i => i.liquidBalance)) =
      some (sumOfType .income (filteredTransactions exSpec exTxs exNow) -
        sumOfType .expense (filteredTransactions exSpec exTxs exNow) -
        sumOfType .saved (filteredTransactions exSpec exTxs exNow)) :=
  ⟨by decide, liquidBalance_spec exSpec exTxs exNow (by decide)⟩

/-! ### Claim C3: savingsRate -/

/-- C3: savingsRate equals round(monthSaved / monthIncome × 100) over the
unfiltered current-calendar-month pool when that pool's income is positive,
is exactly 0 when that income is 0 (regardless of the saved amount), and for
all-positive transaction lists it is a well-defined value ≥ 0 (the guard
makes the division total; in this embedding no NaN can arise).  The filter
specification does not affect the result. -/
theorem savingsRate_spec (spec : FilterSpec) (ts : List Tx) (now : Date)
    (h : ts ≠ []) :
    ((dataToolsInsights spec ts now).map (fun i => i.savingsRate)) =
      some (if 0 < cmIncome ts now
        then jsRound (cmSaved ts now / cmIncome ts now * 100) else 0) ∧
    (cmIncome ts now = 0 →
      ((dataToolsInsights spec ts now).map (fun i => i.savingsRate)) = some 0) ∧
    (ts.all (fun t => decide (0 < t.amount)) = true →
      ∀ r, ((dataToolsInsights spec ts now).map (fun i => i.savingsRate)) = some r →
        0 ≤ r) := by
  have h1 : ((dataToolsInsights spec ts now).map (fun i => i.savingsRate)) =
      some (if 0 < cmIncome ts now
        then jsRound (cmSaved ts now / cmIncome ts now * 100) else 0) := by
    simp only [dataToolsInsights, insights, isEmpty_false_of_ne h,
      Bool.false_eq_true, if_false, Option.map_some']
  refine ⟨h1, ?_, ?_⟩
  · intro h0
    rw [h1, h0]
    simp
  · intro hpos r hr
    rw [h1] at hr
    injection hr with hr
    subst hr
    by_cases h0 : 0 < cmIncome ts now
    · rw [if_pos h0]
      have hnn : ∀ t ∈ ts, 0 ≤ t.amount := by
        intro t ht
        have := List.all_eq_true.mp hpos t ht
        exact le_of_lt (of_decide_eq_true this)
      have hs : 0 ≤ cmSaved ts now := by
        apply sumAmounts_nonneg
        intro t ht
        exact hnn t (List.mem_filter.mp (List.mem_filter.mp ht).1).1
      refine jsRound_nonneg ?_
      have : 0 ≤ cmSaved ts now / cmIncome ts now := div_nonneg hs (le_of_lt h0)
      linarith
    · rw [if_neg h0]

/-- Witness for C3, on the worked example of the spec. -/
theorem savingsRate_spec_witness :
    exTxs ≠ [] ∧ exTxs.all (fun t => decide (0 < t.amount)) = true ∧
    ((dataToolsInsights exSpec exTxs exNow).map (fun i => i.savingsRate)) =
      some (if 0 < cmIncome exTxs exNow
        then jsRound (cmSaved exTxs exNow / cmIncome exTxs exNow * 100) else 0) :=
  ⟨by decide, by decide, (savingsRate_spec exSpec exTxs exNow (by decide)).1⟩

/-! ### Claim C4: last7Days -/

lemma reverse_range7_map {α : Type} (f : Nat → α) :
    ((List.range 7).map f).reverse = (List.range 7).map (fun j => f (6 - j)) := by
  have h : List.range 7 = [0, 1, 2, 3, 4, 5, 6] := rfl
  rw [h]
  rfl

lemma daysInMonthOf_le (y m : Nat) : daysInMonthOf y m ≤ 31 := by
  rw [daysInMonthOf]
  split_ifs <;> omega

lemma prevDay_key_lt {d : Date} (hy : 1 ≤ d.year) :
    dateKey (prevDay d) < dateKey d := by
  have h31 := daysInMonthOf_le d.year (d.month - 1)
  rw [prevDay]
  split_ifs with h1 h2 <;> simp only [dateKey] <;> omega

lemma prevDay_year_ge (d : Date) : d.year - 1 ≤ (prevDay d).year := by
  rw [prevDay]
  split_ifs <;> simp

lemma subDays_year_ge (d : Date) (n : Nat) :
    d.year - n ≤ (subDays d n).year := by
  induction n with
  | zero => simp [subDays]
  | succ n ih =>
    have h := prevDay_year_ge (subDays d n)
    simp only [subDays]
    omega

lemma subDays_key_lt (now : Date) (hy : 7 ≤ now.year) :
    ∀ n k, k < n → n ≤ 6 → dateKey (subDays now n) < dateKey (subDays now k) := by
  intro n
  induction n with
  | zero => intro k hk _; exact absurd hk (Nat.not_lt_zero k)
  | succ n ih =>
    intro k hk hn
    have hyn : 1 ≤ (subDays now n).year := by
      have h := subDays_year_ge now n
      omega
    have hstep : dateKey (subDays now (n + 1)) < dateKey (subDays now n) :=
      prevDay_key_lt hyn
    rcases Nat.lt_succ_iff_lt_or_eq.mp hk with hlt | heq
    · exact hstep.trans (ih k hlt (by omega))
    · rw [heq]
      exact hstep

/-- C4: for every transaction list and filter specification, last7Days has
exactly 7 entries, one per calendar day covering today and the 6 preceding
days, ordered oldest first (strictly increasing dates, for any realistic
clock year); each entry's amount is the expense total dated exactly that
day over the entire unfiltered transaction set — the filter specification
does not appear on the right-hand side, so active filters cannot influence
the series. -/
theorem last7Days_spec (spec : FilterSpec) (ts : List Tx) (now : Date)
    (h : ts ≠ []) :
    ((dataToolsInsights spec ts now).map (fun i => i.last7Days)) =
      some ((List.range 7).map
        (fun j => (subDays now (6 - j), expenseOnDay ts (subDays now (6 - j))))) ∧
    (∀ l, ((dataToolsInsights spec ts now).map (fun i => i.last7Days)) = some l →
      l.length = 7) ∧
    (7 ≤ now.year →
      ∀ l, ((dataToolsInsights spec ts now).map (fun i => i.last7Days)) = some l →
        l.Pairwise (fun e1 e2 => dateKey e1.1 < dateKey e2.1)) := by
  have h1 : ((dataToolsInsights spec ts now).map (fun i => i.last7Days)) =
      some ((List.range 7).map
        (fun j => (subDays now (6 - j), expenseOnDay ts (subDays now (6 - j))))) := by
    simp only [dataToolsInsights, insights, isEmpty_false_of_ne h,
      Bool.false_eq_true, if_false, Option.map_some']
    rw [reverse_range7_map (fun i => (subDays now i, expenseOnDay ts (subDays now i)))]
  refine ⟨h1, ?_, ?_⟩
  · intro l hl
    rw [h1] at hl
    injection hl with hl
    subst hl
    simp
  · intro hy l hl
    rw [h1] at hl
    injection hl with hl
    subst hl
    rw [List.pairwise_map]
    have hbase : (List.range 7).Pairwise (fun a b => a < b ∧ b < 7) := by decide
    refine hbase.imp ?_
    intro a b hab
    exact subDays_key_lt now hy (6 - a) (6 - b) (by omega) (by omega)

/-- Witness for C4, on the worked example of the spec. -/
theorem last7Days_spec_witness :
    exTxs ≠ [] ∧ 7 ≤ exNow.year ∧
    ((dataToolsInsights exSpec exTxs exNow).map (fun i => i.last7Days)) =
      some ((List.range 7).map
        (fun j => (subDays exNow (6 - j), expenseOnDay exTxs (subDays exNow (6 - j))))) :=
  ⟨by decide, by decide, (last7Days_spec exSpec exTxs exNow (by decide)).1⟩

/-! ### Claim C9: runway -/

/-- C9: in the alternate data-tools view, runway equals
floor(liquidBalance / dailyBurn) days whenever dailyBurn > 0, and when
dailyBurn = 0 it is the explicit `unbounded` sentinel (the source stores
the string "∞" there — a value of a different type than every number, hence
distinguishable). -/
theorem runway_spec (ts : List Tx) (now : Date) (h : ts ≠ []) :
    (0 < dailyBurnV0 ts now →
      ((insightsV0 ts now).map (fun i => i.runway)) =
        some (.days ⌊liquidV0 ts / dailyBurnV0 ts now⌋)) ∧
    (dailyBurnV0 ts now = 0 →
      ((insightsV0 ts now).map (fun i => i.runway)) = some .unbounded) := by
  constructor
  · intro h0
    simp only [insightsV0, isEmpty_false_of_ne h, Bool.false_eq_true, if_false,
      Option.map_some']
    rw [if_pos h0]
  · intro h0
    simp only [insightsV0, isEmpty_false_of_ne h, Bool.false_eq_true, if_false,
      Option.map_some']
    rw [if_neg (by rw [h0]; exact lt_irrefl 0)]

/-- Witness for C9: on the worked example the burn rate is positive and the
runway is the floored quotient. -/
theorem runway_spec_witness :
    exTxs ≠ [] ∧ 0 < dailyBurnV0 exTxs exNow ∧
    ((insightsV0 exTxs exNow).map (fun i => i.runway)) =
      some (.days ⌊liquidV0 exTxs / dailyBurnV0 exTxs exNow⌋) := by
  have hdb : 0 < dailyBurnV0 exTxs exNow := by
    simp +decide [dailyBurnV0, sumAmounts, exTxs, exTx1, exTx2, exTx3, exNow, inMonth,
      List.filter_cons]
  exact ⟨by decide, hdb, (runway_spec exTxs exNow (by decide)).1 hdb⟩

/-! ### Claim C8: the export round-trips through standard CSV parsing -/

lemma digitChar_safe (k : Nat) : digitChar k ≠ '"' ∧ digitChar k ≠ ',' := by
  rw [digitChar]
  split_ifs <;> decide

lemma natChars_safe (n : Nat) : ∀ c ∈ natChars n, c ≠ '"' ∧ c ≠ ',' := by
  induction n using Nat.strong_induction_on with
  | _ n ih =>
    rw [natChars]
    split_ifs with h
    · intro c hc
      simp only [List.mem_singleton] at hc
      subst hc
      exact digitChar_safe n
    · intro c hc
      rcases List.mem_append.mp hc with hc | hc
      · exact ih (n / 10) (Nat.div_lt_self (by omega) (by omega)) c hc
      · simp only [List.mem_singleton] at hc
        subst hc
        exact digitChar_safe (n % 10)

lemma pad2_safe (n : Nat) : ∀ c ∈ pad2 n, c ≠ '"' ∧ c ≠ ',' := by
  rw [pad2]
  split_ifs
  · intro c hc
    rcases List.mem_cons.mp hc with hc | hc
    · subst hc; decide
    · exact natChars_safe n c hc
  · exact natChars_safe n

lemma dateChars_safe (d : Date) : ∀ c ∈ dateChars d, c ≠ '"' ∧ c ≠ ',' := by
  intro c hc
  rw [dateChars] at hc
  rcases List.mem_append.mp hc with hc | hc
  · exact natChars_safe d.year c hc
  · rcases List.mem_cons.mp hc with hc | hc
    · subst hc; decide
    · rcases List.mem_append.mp hc with hc | hc
      · exact pad2_safe d.month c hc
      · rcases List.mem_cons.mp hc with hc | hc
        · subst hc; decide
        · exact pad2_safe d.day c hc

lemma ratChars_safe (q : ℚ) : ∀ c ∈ ratChars q, c ≠ '"' ∧ c ≠ ',' := by
  intro c hc
  rw [ratChars] at hc
  rcases List.mem_append.mp hc with hc | hc
  · split_ifs at hc
    · simp only [List.mem_singleton] at hc
      subst hc
      decide
    · simp at hc
  · rcases List.mem_append.mp hc with hc | hc
    · exact natChars_safe _ c hc
    · split_ifs at hc
      · simp at hc
      · rcases List.mem_cons.mp hc with hc | hc
        · subst hc
          decide
        · exact natChars_safe _ c hc

lemma typeStr_safe (ty : TxType) : ∀ c ∈ (typeStr ty).data, c ≠ '"' ∧ c ≠ ',' := by
  cases ty <;> decide

lemma csvFields_quote_start (l : List Char) :
    csvFields ('"' :: l) = quotedField l [] := by
  rw [csvFields]
  rw [if_pos rfl]

lemma csvFields_unquoted (f : List Char) (rest : List Char)
    (hf : ∀ c ∈ f, c ≠ '"' ∧ c ≠ ',') :
    csvFields (f ++ ',' :: rest) = f :: csvFields rest := by
  induction f with
  | nil =>
    rw [List.nil_append, csvFields]
    rw [if_neg (by decide), if_pos rfl]
  | cons c f ih =>
    have hc := hf c (by simp)
    rw [List.cons_append, csvFields]
    rw [if_neg hc.1, if_neg hc.2,
      ih (fun d hd => hf d (by simp [hd]))]

lemma quotedField_escaped (r : List Char) :
    ∀ acc rest, quotedField (escQuotes r ++ '"' :: ',' :: rest) acc =
      (acc.reverse ++ r) :: csvFields rest := by
  induction r with
  | nil =>
    intro acc rest
    rw [escQuotes, List.flatMap_nil, List.nil_append, quotedField]
    rw [if_pos rfl, if_neg (by decide), if_pos rfl, List.append_nil]
  | cons c r ih =>
    intro acc rest
    by_cases hc : c = '"'
    · subst hc
      have he : escQuotes ('"' :: r) = '"' :: '"' :: escQuotes r := by
        rw [escQuotes, List.flatMap_cons, if_pos rfl]
        rfl
      rw [he, List.cons_append, List.cons_append, quotedField]
      rw [if_pos rfl, if_pos rfl, ih ('"' :: acc) rest]
      simp [List.append_assoc]
    · have he : escQuotes (c :: r) = c :: escQuotes r := by
        rw [escQuotes, List.flatMap_cons, if_neg hc]
        rfl
      rw [he, List.cons_append, quotedField.eq_def]
      dsimp only
      rw [if_neg hc, ih (c :: acc) rest]
      simp [List.append_assoc]

lemma quotedField_escaped_last (r : List Char) :
    ∀ acc, quotedField (escQuotes r ++ ['"']) acc = [acc.reverse ++ r] := by
  induction r with
  | nil =>
    intro acc
    rw [escQuotes, List.flatMap_nil, List.nil_append, quotedField]
    rw [if_pos rfl, List.append_nil]
  | cons c r ih =>
    intro acc
    by_cases hc : c = '"'
    · subst hc
      have he : escQuotes ('"' :: r) = '"' :: '"' :: escQuotes r := by
        rw [escQuotes, List.flatMap_cons, if_pos rfl]
        rfl
      rw [he, List.cons_append, List.cons_append, quotedField]
      rw [if_pos rfl, if_pos rfl, ih ('"' :: acc)]
      simp [List.append_assoc]
    · have he : escQuotes (c :: r) = c :: escQuotes r := by
        rw [escQuotes, List.flatMap_cons, if_neg hc]
        rfl
      rw [he, List.cons_append, quotedField.eq_def]
      dsimp only
      rw [if_neg hc, ih (c :: acc)]
      simp [List.append_assoc]

lemma mk_data (s : String) : String.mk s.data = s := rfl

/-- C8: every exported row has the fixed column order id, date, amount,
type, reason, description; the two free-text fields are quoted with
internal quotes doubled, and standard delimited-text parsing of the row
recovers all six fields exactly — in particular a reason containing commas
and quote characters round-trips without corrupting adjacent fields. -/
theorem export_roundtrip_fields (t : Tx) :
    parseCsvRow (renderRow t) =
      [String.mk (natChars t.id), String.mk (dateChars t.date),
        String.mk (ratChars t.amount), typeStr t.type, t.reason, t.description] := by
  rw [parseCsvRow, renderRow]
  show (csvFields (rowChars t)).map String.mk = _
  rw [rowChars]
  rw [csvFields_unquoted _ _ (natChars_safe t.id)]
  rw [csvFields_unquoted _ _ (dateChars_safe t.date)]
  rw [csvFields_unquoted _ _ (ratChars_safe t.amount)]
  rw [csvFields_unquoted _ _ (typeStr_safe t.type)]
  rw [csvFields_quote_start, quotedField_escaped t.reason.data []]
  rw [csvFields_quote_start, quotedField_escaped_last t.description.data []]
  simp [mk_data]
